import Mathlib

/-!
Verification of the TwinSec simulation and attack-injection core.

The definitions below are a shallow embedding of the Python code embedded in
the repository documentation (Backend/docs/EXPLICACION_COMPLETA_DESARROLLO.md
and Backend/docs/SIMULATION_ENGINE.md): the attack service
(AttackService.register_attack / inject_attacks), the simulator step
(Simulator.step), the registration endpoint (create_attack together with the
Pydantic schema AttackCreateRequest), the removal endpoint
(DELETE /api/v1/attacks/id) and the RK4 integrator (rk4_step).

Machine floats (Python f64) are modelled as rationals; dictionaries of
signals are modelled as total functions from signal names to rationals; the
Gaussian sample drawn by the random_noise branch is modelled as an oracle
indexed by the attack id.
-/

namespace TwinSec

/-- A snapshot of named signals, the Python Dict[str, float]. -/
def Signals : Type := String → ℚ

/-- Pointwise update of a signal map, the Python d[k] = v. -/
def setSig (s : Signals) (k : String) (v : ℚ) : Signals :=
  fun x => if x = k then v else s x

/-- Life-cycle status of an attack.  The in-memory service only ever writes
armed, active and completed; the database model additionally knows stopped
and failed. -/
inductive AttackStatus where
  | armed
  | active
  | stopped
  | completed
  | failed
deriving DecidableEq, Repr

/-- The attack kinds together with their kind-specific parameters, as read
from the params dictionary by inject_attacks.  blocked_value is optional
(the code reads it with .get and default 0.0); the other parameters are
accessed with mandatory indexing after validation. -/
inductive AttackKind where
  | dos (blocked_value : Option ℚ)
  | false_data (false_value : ℚ)
  | replay (replay_buffer : List ℚ)
  | ramp (rate : ℚ)
  | random_noise (noise_std : ℚ)
deriving DecidableEq, Repr

/-- One registered attack as stored by AttackService.register_attack. -/
structure Attack where
  attack_id : String
  kind : AttackKind
  target_signal : String
  start_time : ℚ
  duration : Option ℚ
  status : AttackStatus
deriving DecidableEq, Repr

/-- The guard duration and t > start + duration of inject_attacks, with
Python truthiness of the duration field (None and 0.0 are falsy): the
attack window has been left strictly behind. -/
def expired (t : ℚ) (a : Attack) : Bool :=
  match a.duration with
  | none => false
  | some d => d != 0 && decide (a.start_time + d < t)

/-- The transform a single attack applies to the accumulated signal map,
the kind dispatch inside inject_attacks.  real is the unmodified input
map signals (the ramp and random_noise branches read signals[target],
not attacked_signals[target]); noise is the oracle standing for
np.random.normal(0, noise_std).  The replay index is int(elapsed) modulo
the buffer length, with elapsed nonnegative in the calling branch. -/
def applyTransform (t : ℚ) (noise : String → ℚ) (real : Signals)
    (a : Attack) (acc : Signals) : Signals :=
  match a.kind with
  | .dos bv => setSig acc a.target_signal (bv.getD 0)
  | .false_data fv => setSig acc a.target_signal fv
  | .replay buf =>
      setSig acc a.target_signal
        (buf.getD ((⌊t - a.start_time⌋).toNat % buf.length) 0)
  | .ramp rate =>
      setSig acc a.target_signal (real a.target_signal + rate * (t - a.start_time))
  | .random_noise _std =>
      setSig acc a.target_signal (real a.target_signal + noise a.attack_id)

/-- The body of the per-attack loop of AttackService.inject_attacks: window
check, status transition, transform.  Returns the (possibly mutated) attack
record and the updated accumulator. -/
def injectOne (t : ℚ) (noise : String → ℚ) (real : Signals)
    (a : Attack) (acc : Signals) : Attack × Signals :=
  if t < a.start_time then
    (a, acc)
  else if expired t a then
    (if a.status = .active then { a with status := .completed } else a, acc)
  else
    (if a.status = .armed ∧ a.start_time ≤ t then { a with status := .active } else a,
      applyTransform t noise real a acc)

/-- The loop of inject_attacks over the registered attacks, threading the
accumulator attacked_signals while keeping the original map real for the
relative transforms. -/
def injectGo (t : ℚ) (noise : String → ℚ) (real : Signals) :
    List Attack → Signals → List Attack × Signals
  | [], acc => ([], acc)
  | a :: rest, acc =>
      let r := injectOne t noise real a acc
      let rest' := injectGo t noise real rest r.2
      (r.1 :: rest'.1, rest'.2)

/-- AttackService.inject_attacks(t, run_id, signals): starts from a copy of
the input signals and applies every registered attack in registration order;
returns the updated attack records and the attacked signal map.  run_id is
part of the Python signature but unused in the body. -/
def injectAttacks (t : ℚ) (_run_id : Int) (noise : String → ℚ)
    (attacks : List Attack) (signals : Signals) : List Attack × Signals :=
  injectGo t noise signals attacks signals

/-- A whole sequence of inject_attacks calls, each with its own time, noise
oracle and real signal map, acting on the attack registry. -/
def runInject (calls : List (ℚ × (String → ℚ) × Signals))
    (attacks : List Attack) : List Attack :=
  calls.foldl (fun as c => (injectAttacks c.1 0 c.2.1 as c.2.2).1) attacks

/-- The condition under which inject_attacks reaches the transform branch for
an attack: the time is not before start_time and the window has not expired.
This is the code's notion of the attack being active at time t. -/
def inWindow (t : ℚ) (a : Attack) : Bool :=
  !(decide (t < a.start_time)) && !(expired t a)

/-- rk4_step(f, y, t, dt) from the documentation: the classical fourth-order
Runge-Kutta update. -/
def rk4_step (f : ℚ → ℚ → ℚ) (y t dt : ℚ) : ℚ :=
  let k1 := f t y
  let k2 := f (t + dt / 2) (y + dt * k1 / 2)
  let k3 := f (t + dt / 2) (y + dt * k2 / 2)
  let k4 := f (t + dt) (y + dt * k3)
  y + (dt / 6) * (k1 + 2 * k2 + 2 * k3 + k4)

/-- A concrete false-data-injection attack used in concrete evaluations:
false_value 8.5 on the level sensor, start_time 10, duration 20. -/
def fdiAttack : Attack :=
  { attack_id := "a1", kind := .false_data (17 / 2),
    target_signal := "tank.level_sensor", start_time := 10,
    duration := some 20, status := .armed }

/-- A concrete signal map: every signal reads 5. -/
def sig0 : Signals := fun _ => 5

/-- A zero-length-duration attack: Python truthiness makes duration 0.0 falsy
in the expiry guard, so the window never expires. -/
def zeroDurAttack : Attack :=
  { attack_id := "z1", kind := .false_data 9, target_signal := "s",
    start_time := 0, duration := some 0, status := .armed }

/-- Configuration of one simulator run: the helpers Simulator.step calls.
_compute_real_signals reads the physical state; _compute_control maps the
observed signals (and the controller's own state) to the control actions;
_integrate advances the physical state from the real signals and the control
actions over dt.  They are kept abstract: the claims are about the dataflow
of step itself. -/
structure SimCfg (PState Control CtrlState : Type) where
  computeSignals : PState → Signals
  computeControl : Signals → CtrlState → Control × CtrlState
  integrate : PState → ℚ → Signals → Control → ℚ → PState

/-- The mutable per-run state owned by Simulator. -/
structure SimState (PState CtrlState : Type) where
  t : ℚ
  run_id : Int
  state : PState
  ctrl : CtrlState
  attacks : List Attack

/-- Simulator.step(dt): 1. compute the real signals; 2. inject attacks to get
the observed signals; 3. compute control from the observed signals; 4.
integrate the real dynamics with those control actions; 6. emit telemetry
(real, observed, control); 7. advance t by dt.  (Step 5, the database sync
of attack statuses, has no effect on the simulation state.) -/
def simStep {PState Control CtrlState : Type}
    (cfg : SimCfg PState Control CtrlState) (noise : String → ℚ) (dt : ℚ)
    (s : SimState PState CtrlState) :
    SimState PState CtrlState × Signals × Signals × Control :=
  let real := cfg.computeSignals s.state
  let inj := injectAttacks s.t s.run_id noise s.attacks real
  let cc := cfg.computeControl inj.2 s.ctrl
  let state' := cfg.integrate s.state s.t real cc.1 dt
  ({ t := s.t + dt, run_id := s.run_id, state := state', ctrl := cc.2,
      attacks := inj.1 },
    (real, inj.2, cc.1))

/-- Modelled from the spec: the handler of DELETE /api/v1/attacks/id is not
under src; the documentation states that deletion is permitted only while
the attack status is armed or stopped, answers 400 for an active attack and
404 when the id is unknown, and removes the attack otherwise.  The returned
pair is (error message if any, resulting attack set). -/
def removeAttack (attacks : List Attack) (id : String) :
    Option String × List Attack :=
  match attacks.find? (fun a => a.attack_id == id) with
  | none => (some "attack not found", attacks)
  | some a =>
      if a.status = .armed ∨ a.status = .stopped then
        (none, attacks.filter (fun b => !(b.attack_id == id)))
      else
        (some "cannot delete an active attack", attacks)

/-- The per-kind parameter dictionary of an attack creation request; absent
keys are none. -/
structure AttackParamsReq where
  blocked_value : Option ℚ := none
  false_value : Option ℚ := none
  replay_buffer : Option (List ℚ) := none
  rate : Option ℚ := none
  noise_std : Option ℚ := none
deriving DecidableEq, Repr

/-- The attack_type enumeration of the request schema. -/
inductive AttackTypeName where
  | dos
  | false_data_injection
  | replay
  | ramp
  | random_noise
deriving DecidableEq, Repr

/-- The Pydantic schema AttackCreateRequest. -/
structure AttackCreateRequest where
  run_id : Int
  attack_type : AttackTypeName
  target_signal : String
  start_time : ℚ
  duration : Option ℚ
  parameters : AttackParamsReq
deriving DecidableEq, Repr

/-- The Pydantic field constraints of AttackCreateRequest: run_id gt 0,
target_signal length between 1 and 100, start_time ge 0, and duration ge 0
when present (note: ge 0, zero is allowed). -/
def pydanticOk (r : AttackCreateRequest) : Bool :=
  decide (0 < r.run_id) && decide (1 ≤ r.target_signal.length) &&
  decide (r.target_signal.length ≤ 100) && decide (0 ≤ r.start_time) &&
  (match r.duration with
    | none => true
    | some d => decide (0 ≤ d))

/-- Modelled from the spec: AttackService.validate_attack_params is called
by create_attack but its body is not under src; the documentation gives the
kind-specific required parameters (blocked_value optional for dos,
false_value required, replay_buffer required and non-empty, rate required,
noise_std required and nonnegative).  It receives only the attack type and
the parameter dictionary, neither start_time nor duration. -/
def validateAttackParams (ty : AttackTypeName) (p : AttackParamsReq) : Bool :=
  match ty with
  | .dos => true
  | .false_data_injection => p.false_value.isSome
  | .replay =>
      (match p.replay_buffer with
        | some b => !b.isEmpty
        | none => false)
  | .ramp => p.rate.isSome
  | .random_noise =>
      (match p.noise_std with
        | some s => decide (0 ≤ s)
        | none => false)

/-- Packages validated request parameters as the stored attack kind. -/
def buildKind (ty : AttackTypeName) (p : AttackParamsReq) : Option AttackKind :=
  match ty with
  | .dos => some (.dos p.blocked_value)
  | .false_data_injection => p.false_value.map .false_data
  | .replay => p.replay_buffer.map .replay
  | .ramp => p.rate.map .ramp
  | .random_noise => p.noise_std.map .random_noise

/-- The create_attack endpoint core: schema validation, then
validate_attack_params; only on success is the attack appended to the
database rows (store) and registered with the attack service (registry),
both with status armed.  Returns (error message if any, store, registry). -/
def createAttack (r : AttackCreateRequest) (newId : String)
    (store registry : List Attack) :
    Option String × List Attack × List Attack :=
  if !pydanticOk r then
    (some "unprocessable entity", store, registry)
  else if !validateAttackParams r.attack_type r.parameters then
    (some "invalid attack parameters", store, registry)
  else
    match buildKind r.attack_type r.parameters with
    | none => (some "invalid attack parameters", store, registry)
    | some k =>
        let a : Attack :=
          { attack_id := newId, kind := k,
            target_signal := r.target_signal, start_time := r.start_time,
            duration := r.duration, status := .armed }
        (none, store ++ [a], registry ++ [a])

/-- Single-step status transition relation actually written by
inject_attacks: stay put, armed to active, or active to completed. -/
def transOKB (s s' : AttackStatus) : Bool :=
  s == s' || (s == .armed && s' == .active) || (s == .active && s' == .completed)

/-- The life-cycle order armed before active before completed (stopped and
failed are never touched by the loop). -/
def statusLeB (s s' : AttackStatus) : Bool :=
  s == s' || (s == .armed && (s' == .active || s' == .completed)) ||
    (s == .active && s' == .completed)

/-- A concrete replay attack: buffer the spec example [0.5, 0.52, 0.48],
start_time 0, duration 10. -/
def replayAttack : Attack :=
  { attack_id := "r1", kind := .replay [1 / 2, 13 / 25, 12 / 25],
    target_signal := "s", start_time := 0, duration := some 10,
    status := .armed }

/-- A concrete ramp attack: rate 0.1, start_time 10, duration 20. -/
def rampAttack : Attack :=
  { attack_id := "rp1", kind := .ramp (1 / 10), target_signal := "s",
    start_time := 10, duration := some 20, status := .armed }

/-- A concrete attack in the stopped status. -/
def stoppedAttack : Attack :=
  { attack_id := "st1", kind := .dos none, target_signal := "s",
    start_time := 0, duration := some 5, status := .stopped }

/-- A concrete dos attack on signal y, immediately active. -/
def dosYAttack : Attack :=
  { attack_id := "d1", kind := .dos (some 0), target_signal := "y",
    start_time := 0, duration := none, status := .armed }

/-- A concrete simulator configuration over scalar physical state: every
signal reads the state, the controller echoes the observed signal x, and
integration adds control times dt. -/
def cfgW : SimCfg ℚ ℚ ℚ :=
  { computeSignals := fun st => fun _ => st,
    computeControl := fun obs c => (obs "x", c),
    integrate := fun st _t _real u dt => st + u * dt }

/-- A concrete run state with no attacks. -/
def simW1 : SimState ℚ ℚ :=
  { t := 0, run_id := 1, state := 5, ctrl := 0, attacks := [] }

/-- A concrete run state with a dos attack on the (unused) signal y. -/
def simW2 : SimState ℚ ℚ :=
  { t := 0, run_id := 2, state := 5, ctrl := 3, attacks := [dosYAttack] }

/-- A request with a negative start_time (rejected by the schema). -/
def badReq : AttackCreateRequest :=
  { run_id := 1, attack_type := .dos, target_signal := "s", start_time := -1,
    duration := none, parameters := {} }

/-- A request with duration equal to zero (accepted by the schema, which
only demands duration ge 0). -/
def zeroDurReq : AttackCreateRequest :=
  { run_id := 1, attack_type := .dos, target_signal := "s", start_time := 0,
    duration := some 0, parameters := {} }

/-- If the attack targets a signal other than s, its transform leaves the
accumulator unchanged at s. -/
theorem applyTransform_ne (t : ℚ) (noise : String → ℚ) (real : Signals)
    (a : Attack) (acc : Signals) (s : String) (h : a.target_signal ≠ s) :
    applyTransform t noise real a acc s = acc s := by
  have hs : ¬(s = a.target_signal) := fun hc => h hc.symm
  cases hk : a.kind <;> simp [applyTransform, hk, setSig, hs]

/-- Signal-map component of a single attack step, when that attack never
writes s. -/
theorem injectOne_signals_ne (t : ℚ) (noise : String → ℚ) (real : Signals)
    (a : Attack) (acc : Signals) (s : String)
    (h : inWindow t a = true → a.target_signal ≠ s) :
    (injectOne t noise real a acc).2 s = acc s := by
  unfold injectOne
  by_cases h1 : t < a.start_time
  · rw [if_pos h1]
  · rw [if_neg h1]
    by_cases h2 : expired t a = true
    · rw [if_pos h2]
    · rw [if_neg h2]
      have hw : inWindow t a = true := by
        simp [inWindow, h1, h2]
      exact applyTransform_ne t noise real a acc s (h hw)

/-- Frame lemma for the loop: if no attack in the list is in-window with
target s, the accumulator is unchanged at s. -/
theorem injectGo_frame (t : ℚ) (noise : String → ℚ) (real : Signals)
    (attacks : List Attack) (acc : Signals) (s : String)
    (h : ∀ a ∈ attacks, inWindow t a = true → a.target_signal ≠ s) :
    (injectGo t noise real attacks acc).2 s = acc s := by
  induction attacks generalizing acc with
  | nil => rfl
  | cons a rest ih =>
      have ha := h a (List.mem_cons_self a rest)
      have hrest : ∀ b ∈ rest, inWindow t b = true → b.target_signal ≠ s :=
        fun b hb => h b (List.mem_cons_of_mem a hb)
      show (injectGo t noise real rest (injectOne t noise real a acc).2).2 s = acc s
      rw [ih (injectOne t noise real a acc).2 hrest]
      exact injectOne_signals_ne t noise real a acc s ha

/-- C3: inject_attacks only rewrites the target signals of attacks that are
inside their window (active) at time t; every other signal of the returned
observed map equals its value in the input (real) map. -/
theorem inject_attacks_frame (t : ℚ) (rid : Int) (noise : String → ℚ)
    (attacks : List Attack) (signals : Signals) (s : String)
    (h : ∀ a ∈ attacks, inWindow t a = true → a.target_signal ≠ s) :
    (injectAttacks t rid noise attacks signals).2 s = signals s :=
  injectGo_frame t noise signals attacks signals s h

/-- Witness for the frame theorem: with the concrete FDI attack active at
t = 15, a non-targeted signal passes through unchanged. -/
theorem inject_attacks_frame_witness :
    (∀ a ∈ [fdiAttack], inWindow 15 a = true → a.target_signal ≠ "other") ∧
      (injectAttacks 15 1 (fun _ => 0) [fdiAttack] sig0).2 "other" = sig0 "other" := by
  have h : ∀ a ∈ [fdiAttack], inWindow 15 a = true → a.target_signal ≠ "other" := by
    intro a ha hw
    have : a = fdiAttack := by simpa using ha
    subst this
    simp [fdiAttack]
  exact ⟨h, inject_attacks_frame 15 1 (fun _ => 0) [fdiAttack] sig0 "other" h⟩

/-- The expiry guard is false while t has not passed the end of the
window. -/
theorem expired_false_of_le (t : ℚ) (a : Attack) (d : ℚ)
    (hd : a.duration = some d) (h : t ≤ a.start_time + d) :
    expired t a = false := by
  unfold expired
  rw [hd]
  simp [not_lt.mpr h]

/-- The expiry guard fires once t is strictly past the end of a window of
nonzero length. -/
theorem expired_true_of_lt (t : ℚ) (a : Attack) (d : ℚ)
    (hd : a.duration = some d) (hd0 : d ≠ 0) (h : a.start_time + d < t) :
    expired t a = true := by
  unfold expired
  rw [hd]
  simp [hd0, h]

/-- Branch lemma: before the window the loop body is the identity. -/
theorem injectOne_before (t : ℚ) (noise : String → ℚ) (real : Signals)
    (a : Attack) (acc : Signals) (h : t < a.start_time) :
    injectOne t noise real a acc = (a, acc) := by
  unfold injectOne
  rw [if_pos h]

/-- Branch lemma: past the window the loop body completes an active attack
and leaves the signals alone. -/
theorem injectOne_expired (t : ℚ) (noise : String → ℚ) (real : Signals)
    (a : Attack) (acc : Signals) (h1 : ¬t < a.start_time)
    (h2 : expired t a = true) :
    injectOne t noise real a acc =
      (if a.status = .active then { a with status := .completed } else a, acc) := by
  unfold injectOne
  rw [if_neg h1, if_pos h2]

/-- Branch lemma: inside the window the loop body arms the transition to
active and applies the transform. -/
theorem injectOne_applies (t : ℚ) (noise : String → ℚ) (real : Signals)
    (a : Attack) (acc : Signals) (h1 : ¬t < a.start_time)
    (h2 : ¬expired t a = true) :
    injectOne t noise real a acc =
      (if a.status = .armed ∧ a.start_time ≤ t then { a with status := .active } else a,
        applyTransform t noise real a acc) := by
  unfold injectOne
  rw [if_neg h1, if_neg h2]

/-- The single-step transition relation is reflexive. -/
theorem transOKB_refl (s : AttackStatus) : transOKB s s = true := by
  cases s <;> rfl

/-- The life-cycle order is reflexive. -/
theorem statusLeB_refl (s : AttackStatus) : statusLeB s s = true := by
  cases s <;> rfl

/-- Every permitted single-step transition respects the life-cycle order. -/
theorem transOKB_to_le (s s' : AttackStatus) (h : transOKB s s' = true) :
    statusLeB s s' = true := by
  cases s <;> cases s' <;> simp_all [transOKB, statusLeB]

/-- The life-cycle order is transitive. -/
theorem statusLeB_trans (a b c : AttackStatus) (h1 : statusLeB a b = true)
    (h2 : statusLeB b c = true) : statusLeB a c = true := by
  cases a <;> cases b <;> cases c <;> simp_all [statusLeB]

/-- One pass of the loop body performs only the permitted status
transitions. -/
theorem injectOne_status_transOK (t : ℚ) (noise : String → ℚ)
    (real : Signals) (a : Attack) (acc : Signals) :
    transOKB a.status ((injectOne t noise real a acc).1).status = true := by
  unfold injectOne
  by_cases h1 : t < a.start_time
  · rw [if_pos h1]
    exact transOKB_refl _
  · rw [if_neg h1]
    by_cases h2 : expired t a = true
    · rw [if_pos h2]
      by_cases hs : a.status = .active
      · rw [if_pos hs]
        show transOKB a.status .completed = true
        rw [hs]
        rfl
      · rw [if_neg hs]
        exact transOKB_refl _
    · rw [if_neg h2]
      by_cases hs : a.status = .armed ∧ a.start_time ≤ t
      · rw [if_pos hs]
        show transOKB a.status .active = true
        rw [hs.1]
        rfl
      · rw [if_neg hs]
        exact transOKB_refl _

/-- The loop performs only permitted status transitions, attack by
attack. -/
theorem injectGo_fst_status (t : ℚ) (noise : String → ℚ) (real : Signals) :
    ∀ (attacks : List Attack) (acc : Signals),
      List.Forall₂ (fun a b => transOKB a.status b.status = true) attacks
        (injectGo t noise real attacks acc).1 := by
  intro attacks
  induction attacks with
  | nil => intro acc; exact List.Forall₂.nil
  | cons a rest ih =>
      intro acc
      exact List.Forall₂.cons (injectOne_status_transOK t noise real a acc) (ih _)

/-- The life-cycle order relates every attack list to itself. -/
theorem forall2_statusLe_refl (l : List Attack) :
    List.Forall₂ (fun a b => statusLeB a.status b.status = true) l l := by
  induction l with
  | nil => exact List.Forall₂.nil
  | cons a rest ih => exact List.Forall₂.cons (statusLeB_refl _) ih

/-- Pointwise transitivity of the life-cycle order on attack lists. -/
theorem forall2_statusLe_trans {l1 l2 l3 : List Attack}
    (h1 : List.Forall₂ (fun a b => statusLeB a.status b.status = true) l1 l2)
    (h2 : List.Forall₂ (fun a b => statusLeB a.status b.status = true) l2 l3) :
    List.Forall₂ (fun a b => statusLeB a.status b.status = true) l1 l3 := by
  induction h1 generalizing l3 with
  | nil =>
      cases h2
      exact List.Forall₂.nil
  | cons hab h ih =>
      cases h2 with
      | cons hbc h' => exact List.Forall₂.cons (statusLeB_trans _ _ _ hab hbc) (ih h')

/-- C6: across every sequence of inject_attacks calls, with arbitrary (not
necessarily increasing) times, the only transitions ever written are armed
to active and active to completed (first conjunct: each loop body pass), and
the resulting status of every attack never regresses along the order armed,
active, completed (second conjunct: whole call sequences). -/
theorem attack_lifecycle_monotone :
    (∀ (t : ℚ) (noise : String → ℚ) (real acc : Signals) (a : Attack),
        transOKB a.status ((injectOne t noise real a acc).1).status = true) ∧
      (∀ (calls : List (ℚ × (String → ℚ) × Signals)) (attacks : List Attack),
        List.Forall₂ (fun a b => statusLeB a.status b.status = true) attacks
          (runInject calls attacks)) := by
  constructor
  · intro t noise real acc a
    exact injectOne_status_transOK t noise real a acc
  · intro calls
    induction calls with
    | nil => intro attacks; exact forall2_statusLe_refl attacks
    | cons c cs ih =>
        intro attacks
        have h1 : List.Forall₂ (fun a b => statusLeB a.status b.status = true)
            attacks ((injectAttacks c.1 0 c.2.1 attacks c.2.2).1) :=
          (injectGo_fst_status c.1 c.2.1 c.2.2 attacks c.2.2).imp
            (fun a b h => transOKB_to_le a.status b.status h)
        have h2 := ih ((injectAttacks c.1 0 c.2.1 attacks c.2.2).1)
        exact forall2_statusLe_trans h1 h2

/-- C1 (amended): where the code keeps the claimed life-cycle, with the one
boundary correction: for an attack with positive finite duration, a call
before start_time leaves attack and signals alone; a call with
start_time ≤ t ≤ start_time + duration (the end point included) switches an
armed attack to active and applies the transform; only a call with
t strictly greater than start_time + duration completes the attack (and only
from active) and applies no transform. -/
theorem inject_status_window (t : ℚ) (noise : String → ℚ)
    (real acc : Signals) (a : Attack) (d : ℚ)
    (hd : a.duration = some d) (hd0 : 0 < d) :
    (t < a.start_time → injectOne t noise real a acc = (a, acc)) ∧
      (a.start_time ≤ t → t ≤ a.start_time + d →
        ((injectOne t noise real a acc).1).status
            = (if a.status = .armed then .active else a.status) ∧
          (injectOne t noise real a acc).2 = applyTransform t noise real a acc) ∧
      (a.start_time + d < t →
        ((injectOne t noise real a acc).1).status
            = (if a.status = .active then .completed else a.status) ∧
          (injectOne t noise real a acc).2 = acc) := by
  refine ⟨fun h => injectOne_before t noise real a acc h, fun h1 h2 => ?_, fun h3 => ?_⟩
  · have hexp : ¬expired t a = true := by
      rw [expired_false_of_le t a d hd h2]
      exact Bool.false_ne_true
    rw [injectOne_applies t noise real a acc (not_lt.mpr h1) hexp]
    constructor
    · by_cases hs : a.status = .armed
      · rw [if_pos ⟨hs, h1⟩, if_pos hs]
      · rw [if_neg (fun hc => hs hc.1), if_neg hs]
    · rfl
  · have hst : a.start_time < t :=
      lt_of_le_of_lt (le_add_of_nonneg_right (le_of_lt hd0)) h3
    have hexp := expired_true_of_lt t a d hd (ne_of_gt hd0) h3
    rw [injectOne_expired t noise real a acc (not_lt.mpr (le_of_lt hst)) hexp]
    constructor
    · by_cases hs : a.status = .active
      · rw [if_pos hs, if_pos hs]
      · rw [if_neg hs, if_neg hs]
    · rfl

/-- Witness for the amended life-cycle theorem on the concrete FDI attack
(start 10, duration 20) at the boundary time 30. -/
theorem inject_status_window_witness :
    fdiAttack.duration = some 20 ∧ (0 : ℚ) < 20 ∧
      fdiAttack.start_time ≤ 30 ∧ (30 : ℚ) ≤ fdiAttack.start_time + 20 ∧
      ((injectOne 30 (fun _ => 0) sig0 fdiAttack sig0).1).status
        = AttackStatus.active := by
  have h := inject_status_window 30 (fun _ => 0) sig0 sig0 fdiAttack 20
    (by simp [fdiAttack]) (by norm_num)
  have hle : fdiAttack.start_time ≤ (30 : ℚ) := by
    simp [fdiAttack]
    norm_num
  have hle2 : (30 : ℚ) ≤ fdiAttack.start_time + 20 := by
    simp [fdiAttack]
    norm_num
  have h2 := (h.2.1 hle hle2).1
  refine ⟨by simp [fdiAttack], by norm_num, hle, hle2, ?_⟩
  rw [h2]
  simp [fdiAttack]

/-- C1 counterexample: for the attack with start_time 10 and duration 20 the
claim asserts status completed and no transform at t = 30 = start_time +
duration; the code instead marks the attack active at t = 30 and applies the
transform, so the observed target differs from the real one. -/
theorem inject_status_boundary_cex :
    fdiAttack.start_time + 20 = 30 ∧ fdiAttack.duration = some 20 ∧
      fdiAttack.status = AttackStatus.armed ∧
      ((injectAttacks 30 1 (fun _ => 0) [fdiAttack] sig0).1.map Attack.status
        = [AttackStatus.active]) ∧
      AttackStatus.active ≠ AttackStatus.completed ∧
      (injectAttacks 30 1 (fun _ => 0) [fdiAttack] sig0).2 "tank.level_sensor"
        = 17 / 2 ∧
      ((17 : ℚ) / 2 ≠ sig0 "tank.level_sensor") := by
  norm_num [injectAttacks, injectGo, injectOne, expired, applyTransform, setSig,
    fdiAttack, sig0]
  exact fun hc => AttackStatus.noConfusion hc

/-- C10 (amended): for an armed attack with positive finite duration, any
inject_attacks call at a time outside [start_time, start_time + duration]
leaves the attack record and the signal map untouched; hence over any
sequence of calls all outside that window the attack stays armed forever and
its target signal is never transformed. -/
theorem inject_missed_window (a : Attack) (d : ℚ)
    (hst : a.status = .armed) (hd : a.duration = some d) (hd0 : 0 < d) :
    (∀ (t : ℚ) (noise : String → ℚ) (real acc : Signals),
        t < a.start_time ∨ a.start_time + d < t →
        injectOne t noise real a acc = (a, acc)) ∧
      (∀ calls : List (ℚ × (String → ℚ) × Signals),
        (∀ c ∈ calls, c.1 < a.start_time ∨ a.start_time + d < c.1) →
        runInject calls [a] = [a]) ∧
      (∀ (t : ℚ) (rid : Int) (noise : String → ℚ) (signals : Signals),
        t < a.start_time ∨ a.start_time + d < t →
        (injectAttacks t rid noise [a] signals).2 = signals) := by
  have p1 : ∀ (t : ℚ) (noise : String → ℚ) (real acc : Signals),
      t < a.start_time ∨ a.start_time + d < t →
      injectOne t noise real a acc = (a, acc) := by
    intro t noise real acc h
    rcases h with h | h
    · exact injectOne_before t noise real a acc h
    · have hlt : a.start_time < t :=
        lt_of_le_of_lt (le_add_of_nonneg_right (le_of_lt hd0)) h
      have hexp := expired_true_of_lt t a d hd (ne_of_gt hd0) h
      rw [injectOne_expired t noise real a acc (not_lt.mpr (le_of_lt hlt)) hexp]
      have hna : ¬a.status = .active := by
        rw [hst]
        intro hc
        exact absurd hc (by simp)
      rw [if_neg hna]
  refine ⟨p1, ?_, ?_⟩
  · intro calls
    induction calls with
    | nil => intro _; rfl
    | cons c cs ih =>
        intro hcalls
        have hstep : (injectAttacks c.1 0 c.2.1 [a] c.2.2).1 = [a] := by
          show (injectGo c.1 c.2.1 c.2.2 [a] c.2.2).1 = [a]
          have hone := p1 c.1 c.2.1 c.2.2 c.2.2 (hcalls c (List.mem_cons_self c cs))
          simp [injectGo, hone]
        show runInject cs ((injectAttacks c.1 0 c.2.1 [a] c.2.2).1) = [a]
        rw [hstep]
        exact ih (fun c' hc' => hcalls c' (List.mem_cons_of_mem c hc'))
  · intro t rid noise signals h
    show (injectGo t noise signals [a] signals).2 = signals
    have hone := p1 t noise signals signals h
    simp [injectGo, hone]

/-- Witness for the missed-window theorem: a call at t = 5, before the
window of the concrete FDI attack, changes neither the registry nor the
signals. -/
theorem inject_missed_window_witness :
    fdiAttack.status = AttackStatus.armed ∧ fdiAttack.duration = some 20 ∧
      (0 : ℚ) < 20 ∧
      ((5 : ℚ) < fdiAttack.start_time ∨ fdiAttack.start_time + 20 < 5) ∧
      runInject [(5, fun _ => 0, sig0)] [fdiAttack] = [fdiAttack] ∧
      (injectAttacks 5 1 (fun _ => 0) [fdiAttack] sig0).2 = sig0 := by
  have h := inject_missed_window fdiAttack 20 (by norm_num [fdiAttack])
    (by norm_num [fdiAttack]) (by norm_num)
  have hout : (5 : ℚ) < fdiAttack.start_time ∨ fdiAttack.start_time + 20 < 5 := by
    left
    norm_num [fdiAttack]
  refine ⟨by norm_num [fdiAttack], by norm_num [fdiAttack], by norm_num, hout, ?_,
    h.2.2 5 1 (fun _ => 0) sig0 hout⟩
  refine h.2.1 [(5, fun _ => 0, sig0)] ?_
  intro c hc
  have : c = (5, fun _ => 0, sig0) := by simpa using hc
  subst this
  exact hout

/-- C10 counterexample: an armed attack with duration 0 whose window
[0, 0] is never hit; the claim says it stays armed and untransformed, but
Python truthiness makes a 0.0 duration falsy in the expiry guard, so a call
at t = 1 activates the attack and applies the transform. -/
theorem inject_missed_window_cex :
    zeroDurAttack.status = AttackStatus.armed ∧
      zeroDurAttack.duration = some 0 ∧
      ¬(zeroDurAttack.start_time ≤ (1 : ℚ) ∧
          (1 : ℚ) ≤ zeroDurAttack.start_time + 0) ∧
      ((injectAttacks 1 0 (fun _ => 0) [zeroDurAttack] sig0).1.map Attack.status
        = [AttackStatus.active]) ∧
      (injectAttacks 1 0 (fun _ => 0) [zeroDurAttack] sig0).2 "s" = 9 ∧
      ((9 : ℚ) ≠ sig0 "s") := by
  norm_num [injectAttacks, injectGo, injectOne, expired, applyTransform, setSig,
    zeroDurAttack, sig0]

/-- With a single registered attack that is inside its window, the observed
map is the transform of the real map. -/
theorem injectAttacks_single_applies (t : ℚ) (rid : Int)
    (noise : String → ℚ) (a : Attack) (signals : Signals)
    (h1 : ¬t < a.start_time) (h2 : ¬expired t a = true) :
    (injectAttacks t rid noise [a] signals).2
      = applyTransform t noise signals a signals := by
  show (injectGo t noise signals [a] signals).2 = _
  simp [injectGo, injectOne_applies t noise signals a signals h1 h2]

/-- With a single registered attack that is outside its window, the observed
map is exactly the real map. -/
theorem injectAttacks_single_out (t : ℚ) (rid : Int)
    (noise : String → ℚ) (a : Attack) (signals : Signals)
    (h : t < a.start_time ∨ (¬t < a.start_time ∧ expired t a = true)) :
    (injectAttacks t rid noise [a] signals).2 = signals := by
  show (injectGo t noise signals [a] signals).2 = signals
  rcases h with h | ⟨h1, h2⟩
  · simp [injectGo, injectOne_before t noise signals a signals h]
  · simp [injectGo, injectOne_expired t noise signals a signals h1 h2]

/-- C5 (amended): a ramp attack with rate r and positive finite duration
yields observed[target] = real[target] + r (t - start_time) at every call
with start_time ≤ t ≤ start_time + duration (the end point included), and
observed[target] = real[target] at every call strictly outside that closed
window (t < start_time or t > start_time + duration). -/
theorem ramp_observed (a : Attack) (r d : ℚ) (hk : a.kind = .ramp r)
    (hd : a.duration = some d) (hd0 : 0 < d) :
    (∀ (t : ℚ) (rid : Int) (noise : String → ℚ) (signals : Signals),
        a.start_time ≤ t → t ≤ a.start_time + d →
        (injectAttacks t rid noise [a] signals).2 a.target_signal
          = signals a.target_signal + r * (t - a.start_time)) ∧
      (∀ (t : ℚ) (rid : Int) (noise : String → ℚ) (signals : Signals),
        t < a.start_time ∨ a.start_time + d < t →
        (injectAttacks t rid noise [a] signals).2 a.target_signal
          = signals a.target_signal) := by
  constructor
  · intro t rid noise signals h1 h2
    have hexp : ¬expired t a = true := by
      rw [expired_false_of_le t a d hd h2]
      exact Bool.false_ne_true
    rw [injectAttacks_single_applies t rid noise a signals (not_lt.mpr h1) hexp]
    simp [applyTransform, hk, setSig]
  · intro t rid noise signals h
    rcases h with h | h
    · rw [injectAttacks_single_out t rid noise a signals (Or.inl h)]
    · have hlt : a.start_time < t :=
        lt_of_le_of_lt (le_add_of_nonneg_right (le_of_lt hd0)) h
      rw [injectAttacks_single_out t rid noise a signals
        (Or.inr ⟨not_lt.mpr (le_of_lt hlt),
          expired_true_of_lt t a d hd (ne_of_gt hd0) h⟩)]

/-- Witness for the ramp theorem: the concrete ramp attack (rate 0.1, start
10, duration 20) observed at t = 20 inside the window and t = 5 outside. -/
theorem ramp_observed_witness :
    rampAttack.kind = AttackKind.ramp (1 / 10) ∧
      rampAttack.duration = some 20 ∧ (0 : ℚ) < 20 ∧
      rampAttack.start_time ≤ 20 ∧ (20 : ℚ) ≤ rampAttack.start_time + 20 ∧
      (injectAttacks 20 0 (fun _ => 0) [rampAttack] sig0).2 "s"
        = sig0 "s" + (1 / 10) * (20 - rampAttack.start_time) ∧
      (injectAttacks 5 0 (fun _ => 0) [rampAttack] sig0).2 "s" = sig0 "s" := by
  have h := ramp_observed rampAttack (1 / 10) 20 (by norm_num [rampAttack])
    (by norm_num [rampAttack]) (by norm_num)
  have htg : rampAttack.target_signal = "s" := by norm_num [rampAttack]
  refine ⟨by norm_num [rampAttack], by norm_num [rampAttack], by norm_num,
    by norm_num [rampAttack], by norm_num [rampAttack], ?_, ?_⟩
  · have := h.1 20 0 (fun _ => 0) sig0 (by norm_num [rampAttack])
      (by norm_num [rampAttack])
    rw [htg] at this
    exact this
  · have := h.2 5 0 (fun _ => 0) sig0 (Or.inl (by norm_num [rampAttack]))
    rw [htg] at this
    exact this

/-- C5 counterexample: at t = 30 = start_time + duration the claim says the
ramp attack is outside its window and observed equals real, but the code
still applies the ramp there: observed is 7 while the real value is 5. -/
theorem ramp_boundary_cex :
    rampAttack.start_time + 20 = 30 ∧ rampAttack.duration = some 20 ∧
      (injectAttacks 30 0 (fun _ => 0) [rampAttack] sig0).2 "s" = 7 ∧
      ((7 : ℚ) ≠ sig0 "s") := by
  norm_num [injectAttacks, injectGo, injectOne, expired, applyTransform, setSig,
    rampAttack, sig0]

/-- C4 (amended): during the active window a replay attack with non-empty
buffer sets observed[target] to buffer[int(t - start_time) mod len(buffer)],
independent of the real value of the target signal; the step width dt plays
no role (the code has no access to dt), so the spec example sequence holds
exactly when dt = 1. -/
theorem replay_observed (a : Attack) (buf : List ℚ) (d : ℚ)
    (hk : a.kind = .replay buf) (_hbuf : buf ≠ [])
    (hd : a.duration = some d) (_hd0 : 0 < d) :
    ∀ (t : ℚ) (rid : Int) (noise : String → ℚ) (signals : Signals),
      a.start_time ≤ t → t ≤ a.start_time + d →
      (injectAttacks t rid noise [a] signals).2 a.target_signal
        = buf.getD ((⌊t - a.start_time⌋).toNat % buf.length) 0 := by
  intro t rid noise signals h1 h2
  have hexp : ¬expired t a = true := by
    rw [expired_false_of_le t a d hd h2]
    exact Bool.false_ne_true
  rw [injectAttacks_single_applies t rid noise a signals (not_lt.mpr h1) hexp]
  simp [applyTransform, hk, setSig]

/-- Witness for the replay theorem: the concrete replay attack with the spec
buffer at t = 1 plays back element 1 of the buffer, 0.52. -/
theorem replay_observed_witness :
    replayAttack.kind = AttackKind.replay [1 / 2, 13 / 25, 12 / 25] ∧
      ([1 / 2, 13 / 25, 12 / 25] : List ℚ) ≠ [] ∧
      replayAttack.duration = some 10 ∧ (0 : ℚ) < 10 ∧
      replayAttack.start_time ≤ 1 ∧ (1 : ℚ) ≤ replayAttack.start_time + 10 ∧
      (injectAttacks 1 0 (fun _ => 0) [replayAttack] sig0).2 "s" = 13 / 25 := by
  have h := replay_observed replayAttack [1 / 2, 13 / 25, 12 / 25] 10
    (by norm_num [replayAttack]) (by simp) (by norm_num [replayAttack])
    (by norm_num) 1 0 (fun _ => 0) sig0 (by norm_num [replayAttack])
    (by norm_num [replayAttack])
  have htg : replayAttack.target_signal = "s" := by norm_num [replayAttack]
  rw [htg] at h
  refine ⟨by norm_num [replayAttack], by simp, by norm_num [replayAttack],
    by norm_num, by norm_num [replayAttack], by norm_num [replayAttack], ?_⟩
  rw [h]
  norm_num [replayAttack]

/-- C4 counterexample: the claim indexes the buffer by floor((t - start)/dt)
for every dt; with dt = 1/2 at t = 1 that formula selects element 2 of the
buffer (0.48), but the code, which never sees dt, plays element
int(1 - 0) = 1 (0.52). -/
theorem replay_dt_cex :
    (injectAttacks 1 0 (fun _ => 0) [replayAttack] sig0).2 "s" = 13 / 25 ∧
      ([1 / 2, 13 / 25, 12 / 25] : List ℚ).getD
          ((⌊((1 : ℚ) - 0) / (1 / 2)⌋).toNat % 3) 0 = 12 / 25 ∧
      ((13 : ℚ) / 25 ≠ 12 / 25) := by
  norm_num [injectAttacks, injectGo, injectOne, expired, applyTransform, setSig,
    replayAttack, sig0]
  have h2 : Int.toNat 2 % 3 = 2 := rfl
  rw [h2]
  rfl

/-- C2: in Simulator.step the controller sees only the observed (injected)
view, and the next real state is computed from the real state, the real
signals and the control output; hence two runs from equal real state and
time, whatever their attack registries or noise, whose injections yield the
same control output, produce the same next real state (and the same real
telemetry). -/
theorem simStep_control_mediated {PState Control CtrlState : Type}
    (cfg : SimCfg PState Control CtrlState) (noise1 noise2 : String → ℚ)
    (dt : ℚ) (s1 s2 : SimState PState CtrlState)
    (ht : s1.t = s2.t) (hs : s1.state = s2.state)
    (hctrl : (simStep cfg noise1 dt s1).2.2.2 = (simStep cfg noise2 dt s2).2.2.2) :
    ((simStep cfg noise1 dt s1).1).state = ((simStep cfg noise2 dt s2).1).state ∧
      (simStep cfg noise1 dt s1).2.1 = (simStep cfg noise2 dt s2).2.1 := by
  constructor
  · show cfg.integrate s1.state s1.t (cfg.computeSignals s1.state)
        ((simStep cfg noise1 dt s1).2.2.2) dt
      = cfg.integrate s2.state s2.t (cfg.computeSignals s2.state)
        ((simStep cfg noise2 dt s2).2.2.2) dt
    rw [ht, hs, hctrl]
  · show cfg.computeSignals s1.state = cfg.computeSignals s2.state
    rw [hs]

/-- Witness for the control-mediation theorem: one run without attacks and
one with an active dos attack on the unused signal y give the same control
output, so the same next real state. -/
theorem simStep_control_mediated_witness :
    simW1.t = simW2.t ∧ simW1.state = simW2.state ∧
      (simStep cfgW (fun _ => 0) 1 simW1).2.2.2
        = (simStep cfgW (fun _ => 1) 1 simW2).2.2.2 ∧
      ((simStep cfgW (fun _ => 0) 1 simW1).1).state
        = ((simStep cfgW (fun _ => 1) 1 simW2).1).state := by
  have hctrl : (simStep cfgW (fun _ => 0) 1 simW1).2.2.2
      = (simStep cfgW (fun _ => 1) 1 simW2).2.2.2 := by
    have hxy : ¬("x" : String) = "y" := by decide
    norm_num [simStep, cfgW, simW1, simW2, injectAttacks, injectGo, injectOne,
      expired, applyTransform, setSig, dosYAttack, hxy]
  have ht : simW1.t = simW2.t := by norm_num [simW1, simW2]
  have hs : simW1.state = simW2.state := by norm_num [simW1, simW2]
  exact ⟨ht, hs, hctrl,
    (simStep_control_mediated cfgW (fun _ => 0) (fun _ => 1) 1 simW1 simW2
      ht hs hctrl).1⟩

/-- A single loop body pass never changes an attack id. -/
theorem injectOne_id (t : ℚ) (noise : String → ℚ) (real : Signals)
    (a : Attack) (acc : Signals) :
    ((injectOne t noise real a acc).1).attack_id = a.attack_id := by
  unfold injectOne
  by_cases h1 : t < a.start_time
  · rw [if_pos h1]
  · rw [if_neg h1]
    by_cases h2 : expired t a = true
    · rw [if_pos h2]
      by_cases hs : a.status = .active
      · rw [if_pos hs]
      · rw [if_neg hs]
    · rw [if_neg h2]
      by_cases hs : a.status = .armed ∧ a.start_time ≤ t
      · rw [if_pos hs]
      · rw [if_neg hs]

/-- The loop preserves the list of attack ids. -/
theorem injectGo_fst_ids (t : ℚ) (noise : String → ℚ) (real : Signals) :
    ∀ (attacks : List Attack) (acc : Signals),
      ((injectGo t noise real attacks acc).1).map Attack.attack_id
        = attacks.map Attack.attack_id := by
  intro attacks
  induction attacks with
  | nil => intro acc; rfl
  | cons a rest ih =>
      intro acc
      show (((injectOne t noise real a acc).1)
          :: (injectGo t noise real rest (injectOne t noise real a acc).2).1).map
            Attack.attack_id = _
      rw [List.map_cons, List.map_cons, injectOne_id, ih]

/-- Whole call sequences preserve the list of attack ids. -/
theorem runInject_ids (calls : List (ℚ × (String → ℚ) × Signals)) :
    ∀ attacks : List Attack,
      (runInject calls attacks).map Attack.attack_id
        = attacks.map Attack.attack_id := by
  induction calls with
  | nil => intro attacks; rfl
  | cons c cs ih =>
      intro attacks
      show (runInject cs ((injectAttacks c.1 0 c.2.1 attacks c.2.2).1)).map
          Attack.attack_id = _
      rw [ih]
      exact injectGo_fst_ids c.1 c.2.1 c.2.2 attacks c.2.2

/-- Members of a registry evolved by inject calls carry ids of the original
registry. -/
theorem runInject_id_mem (calls : List (ℚ × (String → ℚ) × Signals))
    (attacks : List Attack) (b : Attack) (hb : b ∈ runInject calls attacks) :
    b.attack_id ∈ attacks.map Attack.attack_id := by
  rw [← runInject_ids calls attacks]
  exact List.mem_map_of_mem Attack.attack_id hb

/-- Unfolding of removeAttack when the id is found. -/
theorem removeAttack_found (attacks : List Attack) (id : String) (a : Attack)
    (hfind : attacks.find? (fun b => b.attack_id == id) = some a) :
    removeAttack attacks id =
      (if a.status = .armed ∨ a.status = .stopped then
        (none, attacks.filter (fun b => !(b.attack_id == id)))
      else
        (some "cannot delete an active attack", attacks)) := by
  unfold removeAttack
  rw [hfind]

/-- C7 (amended): removal of a registered attack succeeds exactly when its
status is armed or stopped; a rejected removal leaves the attack set
unchanged; and a removed armed attack is gone for good: no attack with its
id exists after any later sequence of inject_attacks calls, so it never
transitions to active. -/
theorem remove_attack_policy (attacks : List Attack) (id : String) (a : Attack)
    (hfind : attacks.find? (fun b => b.attack_id == id) = some a) :
    ((removeAttack attacks id).1 = none ↔
        (a.status = .armed ∨ a.status = .stopped)) ∧
      ((removeAttack attacks id).1 ≠ none → (removeAttack attacks id).2 = attacks) ∧
      (a.status = .armed →
        (removeAttack attacks id).1 = none ∧
        ∀ (calls : List (ℚ × (String → ℚ) × Signals)) (b : Attack),
          b ∈ runInject calls (removeAttack attacks id).2 → b.attack_id ≠ id) := by
  rw [removeAttack_found attacks id a hfind]
  by_cases hs : a.status = .armed ∨ a.status = .stopped
  · rw [if_pos hs]
    refine ⟨by simp [hs], by simp, fun _ => ⟨rfl, ?_⟩⟩
    intro calls b hb hbid
    have hmem := runInject_id_mem calls _ b hb
    rw [List.mem_map] at hmem
    obtain ⟨c, hc, hcid⟩ := hmem
    rw [List.mem_filter] at hc
    have hcne : ¬c.attack_id = id := by simpa using hc.2
    exact hcne (hcid.trans hbid)
  · rw [if_neg hs]
    exact ⟨by simp [hs], fun _ => rfl, fun ha => absurd (Or.inl ha) hs⟩

/-- Witness for the removal policy: removing the armed concrete FDI attack
succeeds and the registry stays clear of its id across a later call. -/
theorem remove_attack_policy_witness :
    [fdiAttack].find? (fun b => b.attack_id == "a1") = some fdiAttack ∧
      fdiAttack.status = AttackStatus.armed ∧
      (removeAttack [fdiAttack] "a1").1 = none ∧
      (∀ b : Attack,
        b ∈ runInject [(15, fun _ => 0, sig0)] (removeAttack [fdiAttack] "a1").2 →
        b.attack_id ≠ "a1") := by
  have hfind : [fdiAttack].find? (fun b => b.attack_id == "a1") = some fdiAttack := by
    simp [fdiAttack]
  have h := remove_attack_policy [fdiAttack] "a1" fdiAttack hfind
  have harmed : fdiAttack.status = AttackStatus.armed := by norm_num [fdiAttack]
  exact ⟨hfind, harmed, (h.2.2 harmed).1,
    fun b hb => (h.2.2 harmed).2 [(15, fun _ => 0, sig0)] b hb⟩

/-- C7 counterexample: the endpoint also removes an attack in the stopped
status, so success is not equivalent to the status being armed. -/
theorem remove_stopped_cex :
    stoppedAttack.status = AttackStatus.stopped ∧
      stoppedAttack.status ≠ AttackStatus.armed ∧
      (removeAttack [stoppedAttack] "st1").1 = none ∧
      (removeAttack [stoppedAttack] "st1").2 = [] := by
  refine ⟨rfl, fun hc => AttackStatus.noConfusion hc, ?_, ?_⟩ <;>
    simp [removeAttack, stoppedAttack, List.find?, List.filter]

/-- C8 (amended): create_attack rejects a request with negative start_time
(schema) or with a missing or malformed kind-specific required parameter
(validate_attack_params), with an error and without touching the database
rows or the service registry; duration is only validated as nonnegative, so
duration 0 is accepted. -/
theorem create_attack_rejects (r : AttackCreateRequest) (newId : String)
    (store registry : List Attack)
    (h : r.start_time < 0 ∨
      validateAttackParams r.attack_type r.parameters = false) :
    (createAttack r newId store registry).1 ≠ none ∧
      (createAttack r newId store registry).2.1 = store ∧
      (createAttack r newId store registry).2.2 = registry := by
  unfold createAttack
  rcases h with h | h
  · have hp : pydanticOk r = false := by
      unfold pydanticOk
      simp [not_le.mpr h]
    simp [hp]
  · cases hq : pydanticOk r with
    | false => simp [hq]
    | true => simp [hq, h]

/-- Witness for the rejection theorem: the badly-formed request with
start_time -1 is rejected and both stores stay empty. -/
theorem create_attack_rejects_witness :
    badReq.start_time < 0 ∧
      (createAttack badReq "id1" [] []).1 ≠ none ∧
      (createAttack badReq "id1" [] []).2.1 = [] ∧
      (createAttack badReq "id1" [] []).2.2 = [] := by
  have hneg : badReq.start_time < 0 := by norm_num [badReq]
  have h := create_attack_rejects badReq "id1" [] [] (Or.inl hneg)
  exact ⟨hneg, h.1, h.2.1, h.2.2⟩

/-- C8 counterexample: a request with duration exactly 0 passes the schema
(duration ge 0) and validate_attack_params never sees the duration, so the
attack is created and registered, although the claim says it must be
rejected. -/
theorem create_attack_zero_duration_cex :
    zeroDurReq.duration = some 0 ∧
      (createAttack zeroDurReq "id1" [] []).1 = none ∧
      ((createAttack zeroDurReq "id1" [] []).2.1).length = 1 ∧
      ((createAttack zeroDurReq "id1" [] []).2.2).length = 1 := by
  have hlen : ("s" : String).length = 1 := rfl
  norm_num [createAttack, pydanticOk, validateAttackParams, buildKind, zeroDurReq,
    hlen]

/-- C9: the RK4 solver step returns y + (dt/6)(k1 + 2 k2 + 2 k3 + k4) with
k1 = f t y, k2 = f (t + dt/2) (y + (dt/2) k1), k3 = f (t + dt/2)
(y + (dt/2) k2), k4 = f (t + dt) (y + dt k3): exactly four evaluations of f
at t, twice at t + dt/2 with the intermediate states, and at t + dt. -/
theorem rk4_step_formula (f : ℚ → ℚ → ℚ) (y t dt : ℚ) :
    rk4_step f y t dt =
      y + (dt / 6) *
        (f t y
          + 2 * f (t + dt / 2) (y + (dt / 2) * f t y)
          + 2 * f (t + dt / 2) (y + (dt / 2) * f (t + dt / 2) (y + (dt / 2) * f t y))
          + f (t + dt)
              (y + dt * f (t + dt / 2) (y + (dt / 2) * f (t + dt / 2) (y + (dt / 2) * f t y)))) := by
  unfold rk4_step
  simp only [mul_div_right_comm]

end TwinSec
